import Mathlib

/-!
Verification of the economic-data ETL pipeline (src/extract.py, src/load.py,
src/transform.py, src/main.py) against its specification.

The development shallowly embeds the Python source: JSON payloads become an
inductive `Json` type, `compute_hash` is `json.dumps(·, sort_keys=True)`
followed by a full SHA-256 over the UTF-8 (here: ASCII) bytes, the retry
decorator becomes an explicit bounded loop over attempt-indexed outcomes,
the extractors become pure functions from (api key, stored metadata, HTTP
outcome) to an `Except` of (snapshot write, new metadata, returned value),
and the loaders become pure functions on lists of rows.
-/

/-- JSON values as handled by `json.dumps` in the source.  Object fields are
kept in insertion order, as Python `dict`s do; numbers are restricted to the
integers that appear in the payloads under consideration. -/
inductive Json where
  | null : Json
  | bool : Bool → Json
  | num : Int → Json
  | str : String → Json
  | arr : List Json → Json
  | obj : List (String × Json) → Json

/-- Lexicographic comparison of character lists by code point, the order in
which Python's `sorted` arranges `dict` keys for `json.dumps(sort_keys=True)`.
Implemented directly so that it evaluates inside the kernel. -/
def charsLe : List Char → List Char → Bool
  | [], _ => true
  | _ :: _, [] => false
  | a :: as, b :: bs =>
    if a < b then true
    else if b < a then false
    else charsLe as bs

/-- Key comparison used to canonicalize object key order. -/
def keyLe (s t : String) : Bool := charsLe s.data t.data

mutual
/-- Recursively sort every object's fields by key: the canonical form whose
serialization is `json.dumps(data, sort_keys=True)`. -/
def canon : Json → Json
  | .null => .null
  | .bool b => .bool b
  | .num n => .num n
  | .str s => .str s
  | .arr xs => .arr (canonList xs)
  | .obj fs => .obj (List.insertionSort (fun a b => keyLe a.1 b.1 = true) (canonFields fs))

def canonList : List Json → List Json
  | [] => []
  | x :: xs => canon x :: canonList xs

def canonFields : List (String × Json) → List (String × Json)
  | [] => []
  | (k, v) :: t => (k, canon v) :: canonFields t
end

/-- Decimal digits of a natural number, fuel-indexed so the recursion is
structural and kernel-reducible. -/
def natDigitsAux : Nat → Nat → List Char
  | 0, _ => []
  | _ + 1, 0 => []
  | fuel + 1, n => natDigitsAux fuel (n / 10) ++ [Char.ofNat (48 + n % 10)]

/-- Decimal rendering of a natural number, as Python renders `int`. -/
def natChars (n : Nat) : List Char :=
  if n = 0 then ['0'] else natDigitsAux (n + 1) n

/-- Decimal rendering of an integer, as Python renders `int`. -/
def intChars (n : Int) : List Char :=
  if n < 0 then '-' :: natChars n.natAbs else natChars n.toNat

/-- JSON string escaping.  The payloads in this development are printable
ASCII, for which `json.dumps` escapes exactly the quote and the backslash. -/
def escapeChars : List Char → List Char
  | [] => []
  | c :: t => (if c = '"' ∨ c = '\\' then ['\\', c] else [c]) ++ escapeChars t

/-- Serialization of a JSON string literal, quotes included. -/
def strChars (s : String) : List Char := '"' :: (escapeChars s.data ++ ['"'])

/-- Join serialized items with the `", "` separator `json.dumps` uses by
default. -/
def commaJoin : List (List Char) → List Char
  | [] => []
  | [x] => x
  | x :: y :: t => x ++ ',' :: ' ' :: commaJoin (y :: t)

/-- The opening brace character, by code point. -/
def lbrace : Char := Char.ofNat 123

/-- The closing brace character, by code point. -/
def rbrace : Char := Char.ofNat 125

mutual
/-- Plain serialization of a JSON value with `json.dumps`'s default
separators (`", "` between items, `": "` after a key). -/
def jser : Json → List Char
  | .null => "null".data
  | .bool true => "true".data
  | .bool false => "false".data
  | .num n => intChars n
  | .str s => strChars s
  | .arr xs => '[' :: (commaJoin (jserList xs) ++ [']'])
  | .obj fs => lbrace :: (commaJoin (jserFields fs) ++ [rbrace])

def jserList : List Json → List (List Char)
  | [] => []
  | x :: xs => jser x :: jserList xs

def jserFields : List (String × Json) → List (List Char)
  | [] => []
  | (k, v) :: t => (strChars k ++ ':' :: ' ' :: jser v) :: jserFields t
end

/-- Model of `json.dumps(data, sort_keys=True)`: canonicalize key order at
every level, then serialize. -/
def dumps_sorted (data : Json) : List Char := jser (canon data)

/-- Truncation to a 32-bit word. -/
def w32 (n : Nat) : Nat := n % 4294967296

/-- Right rotation of a 32-bit word. -/
def rotr32 (n k : Nat) : Nat := w32 ((n >>> k) ||| (n <<< (32 - k)))

/-- SHA-256 message-schedule sigma-0. -/
def ssig0 (w : Nat) : Nat := rotr32 w 7 ^^^ rotr32 w 18 ^^^ (w >>> 3)

/-- SHA-256 message-schedule sigma-1. -/
def ssig1 (w : Nat) : Nat := rotr32 w 17 ^^^ rotr32 w 19 ^^^ (w >>> 10)

/-- SHA-256 compression Sigma-0. -/
def bsig0 (a : Nat) : Nat := rotr32 a 2 ^^^ rotr32 a 13 ^^^ rotr32 a 22

/-- SHA-256 compression Sigma-1. -/
def bsig1 (e : Nat) : Nat := rotr32 e 6 ^^^ rotr32 e 11 ^^^ rotr32 e 25

/-- SHA-256 round constants. -/
def shaK : List Nat :=
  [1116352408, 1899447441, 3049323471, 3921009573, 961987163, 1508970993,
   2453635748, 2870763221, 3624381080, 310598401, 607225278, 1426881987,
   1925078388, 2162078206, 2614888103, 3248222580, 3835390401, 4022224774,
   264347078, 604807628, 770255983, 1249150122, 1555081692, 1996064986,
   2554220882, 2821834349, 2952996808, 3210313671, 3336571891, 3584528711,
   113926993, 338241895, 666307205, 773529912, 1294757372, 1396182291,
   1695183700, 1986661051, 2177026350, 2456956037, 2730485921, 2820302411,
   3259730800, 3345764771, 3516065817, 3600352804, 4094571909, 275423344,
   430227734, 506948616, 659060556, 883997877, 958139571, 1322822218,
   1537002063, 1747873779, 1955562222, 2024104815, 2227730452, 2361852424,
   2428436474, 2756734187, 3204031479, 3329325298]

/-- The eight working variables of the SHA-256 state. -/
structure Sha8 where
  a : Nat
  b : Nat
  c : Nat
  d : Nat
  e : Nat
  f : Nat
  g : Nat
  h : Nat

/-- Extend a 16-word block to the 64-word message schedule (48 fuel steps). -/
def scheduleAux : Nat → List Nat → List Nat
  | 0, ws => ws
  | fuel + 1, ws =>
    scheduleAux fuel (ws ++ [w32 (ssig1 (ws.getD (ws.length - 2) 0) + ws.getD (ws.length - 7) 0 +
      ssig0 (ws.getD (ws.length - 15) 0) + ws.getD (ws.length - 16) 0)])

/-- Group bytes into big-endian 32-bit words. -/
def bytesToWords : List Nat → List Nat
  | b0 :: b1 :: b2 :: b3 :: rest => (((b0 * 256 + b1) * 256 + b2) * 256 + b3) :: bytesToWords rest
  | _ => []

/-- One SHA-256 compression round. -/
def roundStep (st : Sha8) (kw : Nat × Nat) : Sha8 :=
  let ch := (st.e &&& st.f) ^^^ ((st.e ^^^ 4294967295) &&& st.g)
  let maj := (st.a &&& st.b) ^^^ (st.a &&& st.c) ^^^ (st.b &&& st.c)
  let t1 := w32 (st.h + bsig1 st.e + ch + kw.1 + kw.2)
  let t2 := w32 (bsig0 st.a + maj)
  ⟨w32 (t1 + t2), st.a, st.b, st.c, w32 (st.d + t1), st.e, st.f, st.g⟩

/-- Compress one 64-byte block into the running hash value. -/
def processBlock (hv : Sha8) (block : List Nat) : Sha8 :=
  let ws := scheduleAux 48 (bytesToWords block)
  let st := (shaK.zip ws).foldl roundStep hv
  ⟨w32 (hv.a + st.a), w32 (hv.b + st.b), w32 (hv.c + st.c), w32 (hv.d + st.d),
   w32 (hv.e + st.e), w32 (hv.f + st.f), w32 (hv.g + st.g), w32 (hv.h + st.h)⟩

/-- Split a byte list into 64-byte blocks (fuel-indexed). -/
def toBlocks : Nat → List Nat → List (List Nat)
  | 0, _ => []
  | _ + 1, [] => []
  | fuel + 1, l => l.take 64 :: toBlocks fuel (l.drop 64)

/-- SHA-256 padding: append 0x80, zero bytes to 56 mod 64, then the bit
length as a big-endian 64-bit integer. -/
def padBytes (msg : List Nat) : List Nat :=
  let l := msg.length
  let zeros := (120 - (l + 1) % 64) % 64
  let bitLen := 8 * l
  msg ++ 0x80 :: List.replicate zeros 0 ++
    [(bitLen >>> 56) % 256, (bitLen >>> 48) % 256, (bitLen >>> 40) % 256, (bitLen >>> 32) % 256,
     (bitLen >>> 24) % 256, (bitLen >>> 16) % 256, (bitLen >>> 8) % 256, bitLen % 256]

/-- The SHA-256 initial hash value. -/
def shaInit : Sha8 :=
  ⟨1779033703, 3144134277, 1013904242, 2773480762,
   1359893119, 2600822924, 528734635, 1541459225⟩

/-- SHA-256 of a byte string, as the eight 32-bit words of the digest. -/
def sha256Words (msg : List Nat) : Sha8 :=
  let padded := padBytes msg
  (toBlocks padded.length padded).foldl processBlock shaInit

/-- The sixteen lowercase hexadecimal digits. -/
def hexDigitList : List Char := "0123456789abcdef".data

/-- Hexadecimal digit of a nibble. -/
def hexChar (n : Nat) : Char := hexDigitList.getD (n % 16) '0'

/-- The eight hexadecimal digits of one 32-bit word, most significant first. -/
def wordHex (w : Nat) : List Char :=
  [hexChar (w >>> 28), hexChar (w >>> 24), hexChar (w >>> 20), hexChar (w >>> 16),
   hexChar (w >>> 12), hexChar (w >>> 8), hexChar (w >>> 4), hexChar w]

/-- Model of `hashlib.sha256(encoded).hexdigest()` on an ASCII byte string
given as characters. -/
def sha256_hexdigest (chars : List Char) : String :=
  let d := sha256Words (chars.map Char.toNat)
  String.mk (wordHex d.a ++ wordHex d.b ++ wordHex d.c ++ wordHex d.d ++
    wordHex d.e ++ wordHex d.f ++ wordHex d.g ++ wordHex d.h)

/-- Model of `extract.compute_hash`: SHA-256 hex digest of
`json.dumps(data, sort_keys=True).encode()`. -/
def compute_hash (data : Json) : String := sha256_hexdigest (dumps_sorted data)

/-! ## Retry wrapper (`extract.fetch_with_retry`) -/

/-- A Python callable as the retry decorator sees it: its `__name__` and, for
each invocation index `i` (0-based), the outcome of its `i`-th invocation —
a value or a raised exception. -/
structure PyFunc (E A : Type) where
  name : String
  run : Nat → Except E A

/-- Observable outcome of calling the wrapper once: `result` is what the call
does (`some (.ok a)` returns `a`, `some (.error e)` raises `e`, `none` would
be falling off the loop, which cannot happen with 3 attempts), `calls` how
often the wrapped operation was invoked, and `sleeps` the backoff delays in
seconds. -/
structure RetryTrace (E A : Type) where
  result : Option (Except E A)
  calls : Nat
  sleeps : List Nat

/-- Model of the `for attempt in range(3)` loop in `fetch_with_retry`:
`attempt` is the current index, the second argument the number of remaining
iterations.  On success the value is returned; on any exception, if
`attempt < 2` the loop sleeps `2 ** attempt` seconds and continues, otherwise
it re-raises the exception. -/
def retryLoop (f : Nat → Except E A) : Nat → Nat → RetryTrace E A
  | _, 0 => ⟨none, 0, []⟩
  | attempt, n + 1 =>
    match f attempt with
    | .ok a => ⟨some (.ok a), 1, []⟩
    | .error e =>
      if attempt < 2 then
        let t := retryLoop f (attempt + 1) n
        ⟨t.result, t.calls + 1, 2 ^ attempt :: t.sleeps⟩
      else ⟨some (.error e), 1, []⟩

/-- The function object `fetch_with_retry` returns: the inner `def wrapper`
(there is no `functools.wraps`, so its `__name__` is the literal string
"wrapper"), whose single call runs the retry loop over the wrapped
operation. -/
structure Wrapped (E A : Type) where
  name : String
  call : RetryTrace E A

/-- Model of `extract.fetch_with_retry`. -/
def fetch_with_retry (f : PyFunc E A) : Wrapped E A :=
  ⟨"wrapper", retryLoop f.run 0 3⟩

/-! ## Extractors (`extract.fetch_fred_data`, `extract.fetch_bls_data`) -/

/-- Transport-level failures: a `requests` exception or a non-2xx status
raised by `raise_for_status`. -/
inductive HttpErr where
  | connectionError : String → HttpErr
  | httpStatus : Nat → HttpErr
deriving DecidableEq

/-- Exceptions `fetch_fred_data` can raise besides transport errors:
`ValueError` for the missing key and for a malformed response. -/
inductive FredErr where
  | valueError : String → FredErr
  | http : HttpErr → FredErr

/-- Exceptions `fetch_bls_data` can raise: `ValueError` for the missing key,
transport errors, and `RuntimeError` for an application-level failure status
(carrying the upstream `message` field, when present). -/
inductive BlsErr where
  | valueError : String → BlsErr
  | http : HttpErr → BlsErr
  | runtimeError : Option Json → BlsErr

/-- One FRED observation, as the `observations` entries `{date, value}` the
extractor hashes and reads dates from. -/
structure Obs where
  date : String
  value : String
deriving DecidableEq

/-- A FRED response body: the `observations` list when the key is present,
plus whatever envelope fields accompany it (echoed request parameters and so
on), which the fingerprint must ignore. -/
structure FredResponse where
  observations : Option (List Obs)
  envelope : List (String × Json)

/-- A per-source-and-identifier metadata record, `{}` on first run modelled
by all fields `none`. -/
structure Metadata where
  lastObservationDate : Option String
  lastHash : Option String
  lastUpdated : Option String

/-- JSON encoding of one observation, as it appears in the hashed payload. -/
def obsJson (o : Obs) : Json :=
  Json.obj [("date", Json.str o.date), ("value", Json.str o.value)]

/-- The fingerprint `compute_hash(data.get("observations", []))` of the
observations portion of a FRED response. -/
def fredObsHash (r : FredResponse) : String :=
  compute_hash (Json.arr ((r.observations.getD []).map obsJson))

/-- Model of `extract.get_storage_path`: the daily snapshot name
`<source>_<identifier>_<YYYY_MM_DD>.json`. -/
def get_storage_path (source identifier datestamp : String) : String :=
  source ++ "_" ++ identifier ++ "_" ++ datestamp ++ ".json"

/-- Python truthiness of an optional string credential: `if not KEY` holds
for an unset (None) or empty key. -/
def apiKeyMissing : Option String → Bool
  | none => true
  | some k => k = ""

/-- Effects of one successful `fetch_fred_data` call: the snapshot write (path
and content) if any, the metadata stored afterwards, and the value returned
to the caller (Python returns `None` on every path, hence an `Option` that
the theorems show is always `none`). -/
structure FredOutcome where
  written : Option (String × FredResponse)
  meta : Metadata
  ret : Option FredResponse

/-- Model of `extract.fetch_fred_data` (the body inside the decorator).
Inputs: the configured key, the metadata loaded for `seriesId`, the outcome
of the HTTP request, today's datestamp for the snapshot name, and
`datetime.now().isoformat()` for `last_updated`. -/
def fetch_fred_data (apiKey : Option String) (seriesId : String) (meta : Metadata)
    (http : Except HttpErr FredResponse) (today now : String) : Except FredErr FredOutcome :=
  if apiKeyMissing apiKey then .error (.valueError "FRED_API_KEY not set.")
  else
    match http with
    | .error e => .error (.http e)
    | .ok data =>
      if data.observations.isNone then
        .error (.valueError ("Malformed FRED response for " ++ seriesId))
      else
        let newHash := fredObsHash data
        if meta.lastHash == some newHash then
          .ok ⟨none, meta, none⟩
        else
          let observations := data.observations.getD []
          let latest :=
            match observations.getLast? with
            | some o => some o.date
            | none => meta.lastObservationDate
          .ok ⟨some (get_storage_path "FRED" seriesId today, data),
            ⟨latest, some newHash, some now⟩, none⟩

/-- First field of an object with the given key, Python's `dict.get`. -/
def jsonGet (j : Json) (k : String) : Option Json :=
  match j with
  | .obj fs => (fs.find? (fun p => p.1 == k)).map (·.2)
  | _ => none

/-- Effects of one successful `fetch_bls_data` call, in the same shape as
`FredOutcome`; the whole response is a single JSON document. -/
structure BlsOutcome where
  written : Option (String × Json)
  meta : Metadata
  ret : Option Json

/-- Model of `extract.fetch_bls_data` (the body inside the decorator).  The
series map and year range only shape the outgoing request payload, which is
summarized by the `http` input. -/
def fetch_bls_data (apiKey : Option String) (seriesDict : List (String × String))
    (startYear endYear : Int) (meta : Metadata) (http : Except HttpErr Json)
    (today now : String) : Except BlsErr BlsOutcome :=
  if apiKeyMissing apiKey then .error (.valueError "BLS_API_KEY not set.")
  else
    match http with
    | .error e => .error (.http e)
    | .ok data =>
      match jsonGet data "status" with
      | some (.str "REQUEST_SUCCEEDED") =>
        let newHash := compute_hash data
        if meta.lastHash == some newHash then
          .ok ⟨none, meta, none⟩
        else
          .ok ⟨some (get_storage_path "BLS" "batch_pull" today, data),
            ⟨none, some newHash, some now⟩, none⟩
      | _ => .error (.runtimeError (jsonGet data "message"))

/-! ## Loader (`load.upsert_observations`, `load.upsert_dim_series`) -/

/-- A row of the `fact_economic_observations` table and of the tidy fact
DataFrames.  Dates are the ISO `YYYY-MM-DD` strings the loader normalizes
to; a missing value (NaN, stored as SQL NULL) is `none`, and numeric values
are modelled as rationals. -/
structure FactRow where
  series_id : String
  series_name : String
  date : String
  value : Option ℚ
  source : String
deriving DecidableEq

/-- Model of `load._to_date_str` and of the `str(row["date"])[:10]` used on
storage rows: the leading `YYYY-MM-DD` portion of the rendered date. -/
def to_date_str (s : String) : String := s.take 10

/-- Model of `load._nan_equal`: two NaN/NULL values are equal, NaN never
equals a number, and two numbers are equal within the absolute tolerance
`1e-9`. -/
def nan_equal (a b : Option ℚ) : Bool :=
  match a, b with
  | none, none => true
  | none, some _ => false
  | some _, none => false
  | some x, some y => decide (|x - y| < 1 / 1000000000)

/-- The `(series_id, date, value)` pairs the loader reads into
`existing_map`, in storage order. -/
def existing_map (store : List FactRow) : List ((String × String) × Option ℚ) :=
  store.map (fun r => ((r.series_id, to_date_str r.date), r.value))

/-- Lookup in the dict built by the `existing_map` comprehension: the last
binding of a repeated key wins, as in a Python dict build. -/
def dict_get (m : List ((String × String) × Option ℚ)) (k : String × String) :
    Option (Option ℚ) :=
  (m.reverse.find? (fun p => decide (p.1 = k))).map (·.2)

/-- The upsert summary `{"inserted": _, "updated": _, "unchanged": _}`. -/
structure UpsertStats where
  inserted : Nat
  updated : Nat
  unchanged : Nat
deriving DecidableEq

/-- The classification loop of `upsert_observations` over the incoming rows:
returns the counts together with the `to_insert` and `to_update` buckets (in
input order; the recursion processes the list from the front and combines on
the way out, which yields the same totals as the in-place Python loop). -/
def upsert_loop (em : List ((String × String) × Option ℚ)) :
    List FactRow → UpsertStats × List FactRow × List FactRow
  | [] => (⟨0, 0, 0⟩, [], [])
  | r :: rest =>
    let s := upsert_loop em rest
    match dict_get em (r.series_id, to_date_str r.date) with
    | none => (⟨s.1.inserted + 1, s.1.updated, s.1.unchanged⟩, r :: s.2.1, s.2.2)
    | some v =>
      if nan_equal r.value v then (⟨s.1.inserted, s.1.updated, s.1.unchanged + 1⟩, s.2.1, s.2.2)
      else (⟨s.1.inserted, s.1.updated + 1, s.1.unchanged⟩, s.2.1, r :: s.2.2)

/-- Model of `load.upsert_observations`: read the existing keys once, then
classify every incoming row against them.  The first component is the
returned stats dict; the second and third are the rows batch-inserted and
row-updated. -/
def upsert_observations (df store : List FactRow) :
    UpsertStats × List FactRow × List FactRow :=
  upsert_loop (existing_map store) df

/-- The classification of one incoming row, as the specification describes
it: insert when the key is absent, unchanged when present with an equal
value, update otherwise. -/
inductive RowClass where
  | insert : RowClass
  | unchanged : RowClass
  | update : RowClass
deriving DecidableEq

/-- Classification of a row against the existing keys. -/
def classify (em : List ((String × String) × Option ℚ)) (r : FactRow) : RowClass :=
  match dict_get em (r.series_id, to_date_str r.date) with
  | none => .insert
  | some v => if nan_equal r.value v then .unchanged else .update

/-- A row of `dim_series`. -/
structure DimRow where
  series_id : String
  series_name : String
  source : String
deriving DecidableEq

/-- The dimension upsert summary `{"inserted": _, "unchanged": _}`. -/
structure DimStats where
  inserted : Nat
  unchanged : Nat
deriving DecidableEq

/-- Model of `load.upsert_dim_series`: rows whose `series_id` already exists
are left untouched and counted as unchanged; the rest are appended. -/
def upsert_dim_series (df store : List DimRow) : DimStats × List DimRow :=
  let existing_ids := store.map (·.series_id)
  let new_rows := df.filter (fun r => decide (r.series_id ∉ existing_ids))
  let unchanged := df.length - new_rows.length
  if new_rows.isEmpty then (⟨0, unchanged⟩, store)
  else (⟨new_rows.length, unchanged⟩, store ++ new_rows)

/-! ## Combiner (`transform.combine_fact_tables`) and orchestrator fragment -/

/-- Modelled from the spec: `combine_fact_tables` is imported by
`src/main.py` and exercised by the test suite, but its definition is missing
from `src/transform.py`.  Per the spec it concatenates the Source-A tables
(zero or more) with the single Source-B table and sorts the union ascending
by date with a stable sort. -/
def combine_fact_tables (fredFrames : List (List FactRow)) (blsFrame : List FactRow) :
    List FactRow :=
  (fredFrames.flatten ++ blsFrame).mergeSort (fun a b => decide (a.date ≤ b.date))

/-- The Source-A frames `run_pipeline` hands to the transform phase: one
parsed table per configured series whose extraction result is not `None`.
`series` is the `FRED_SERIES` name-to-id map, `fredData` the `fred_data`
dict, and `parse` stands for `parse_fred_observations` applied to the
payload, technical id and display name. -/
def pipeline_fred_frames {α : Type} (series : List (String × String))
    (fredData : String → Option FredResponse)
    (parse : FredResponse → String → String → α) : List α :=
  (series.filter (fun p => (fredData p.1).isSome)).map
    (fun p => parse ((fredData p.1).getD ⟨none, []⟩) p.2 p.1)

/-! ## Concrete inputs used by witness theorems -/

/-- A FRED response used by the no-change witness. -/
def fredRespNoChange : FredResponse := ⟨some [⟨"2024-01-01", "5.0"⟩], []⟩

/-- Metadata already holding the fingerprint of `fredRespNoChange`. -/
def metaNoChange : Metadata :=
  ⟨some "2024-01-01", some (fredObsHash fredRespNoChange), some "2024-01-01T12:00:00"⟩

/-- A FRED response used by the change witness (one new observation,
some envelope noise). -/
def fredRespChange : FredResponse :=
  ⟨some [⟨"2023-12-01", "4.9"⟩, ⟨"2024-01-01", "5.0"⟩], [("count", Json.num 2)]⟩

/-- Metadata before the change-detected run. -/
def metaBeforeChange : Metadata := ⟨some "2023-12-01", none, none⟩

/-- The outcome of the change-detected witness run. -/
def fredOutChange : FredOutcome :=
  ⟨some (get_storage_path "FRED" "UNRATE" "2024_01_02", fredRespChange),
   ⟨some "2024-01-01", some (fredObsHash fredRespChange), some "2024-01-02T12:00:00"⟩, none⟩

/-! ## Helper lemmas -/

theorem length_filter_add_length_filter_neg {α : Type} (p : α → Bool) (l : List α) :
    (l.filter p).length + (l.filter (fun a => ! p a)).length = l.length := by
  induction l with
  | nil => rfl
  | cons x t ih => cases h : p x <;> simp [List.filter_cons, h] <;> omega

/-! ## Retry wrapper theorems -/

/-- C2: the claim says a configuration failure (`ValueError`) propagates
after exactly 1 invocation without consuming a retry; the code's
`except Exception` treats every failure alike, so an operation that always
raises a configuration error is invoked 3 times, with both backoff sleeps,
before the error propagates. -/
theorem fetch_with_retry_retries_config_error :
    (fetch_with_retry (⟨"config_error", fun _ => Except.error "bad config"⟩ :
      PyFunc String Unit)).call =
      ⟨some (Except.error "bad config"), 3, [1, 2]⟩ := rfl

/-- C9: the claim says the wrapper preserves the wrapped operation's name;
the inner `def wrapper` carries no `functools.wraps`, so the returned
function's name is the literal "wrapper", not the wrapped operation's. -/
theorem fetch_with_retry_wrapper_name :
    (fetch_with_retry (⟨"my_func", fun _ => Except.ok 0⟩ : PyFunc String Nat)).name =
      "wrapper" ∧ "wrapper" ≠ "my_func" :=
  ⟨rfl, by decide⟩

/-- C6: the retry wrapper invokes the wrapped operation at most 3 times,
sleeping `2 ^ attempt` seconds (1s then 2s) between attempts; a success on
any attempt is returned unchanged, and when all three attempts fail the
final attempt's error propagates unchanged. -/
theorem fetch_with_retry_bounded_backoff {E A : Type} (f : PyFunc E A) :
    (fetch_with_retry f).call.calls ≤ 3 ∧
    (∀ a, f.run 0 = .ok a →
      (fetch_with_retry f).call = ⟨some (.ok a), 1, []⟩) ∧
    (∀ e a, f.run 0 = .error e → f.run 1 = .ok a →
      (fetch_with_retry f).call = ⟨some (.ok a), 2, [1]⟩) ∧
    (∀ e e' a, f.run 0 = .error e → f.run 1 = .error e' → f.run 2 = .ok a →
      (fetch_with_retry f).call = ⟨some (.ok a), 3, [1, 2]⟩) ∧
    (∀ e e' e'', f.run 0 = .error e → f.run 1 = .error e' → f.run 2 = .error e'' →
      (fetch_with_retry f).call = ⟨some (.error e''), 3, [1, 2]⟩) := by
  refine ⟨?_, ?_, ?_, ?_, ?_⟩
  · cases h0 : f.run 0 <;> cases h1 : f.run 1 <;> cases h2 : f.run 2 <;>
      simp [fetch_with_retry, retryLoop, h0, h1, h2]
  · intro a h0
    simp [fetch_with_retry, retryLoop, h0]
  · intro e a h0 h1
    simp [fetch_with_retry, retryLoop, h0, h1]
  · intro e e' a h0 h1 h2
    simp [fetch_with_retry, retryLoop, h0, h1, h2]
  · intro e e' e'' h0 h1 h2
    simp [fetch_with_retry, retryLoop, h0, h1, h2]

/-! ## Loader theorems -/

theorem upsert_loop_buckets (em : List ((String × String) × Option ℚ))
    (df : List FactRow) :
    (upsert_loop em df).1.inserted =
      (df.filter (fun r => decide (classify em r = RowClass.insert))).length ∧
    (upsert_loop em df).1.updated =
      (df.filter (fun r => decide (classify em r = RowClass.update))).length ∧
    (upsert_loop em df).1.unchanged =
      (df.filter (fun r => decide (classify em r = RowClass.unchanged))).length ∧
    (upsert_loop em df).2.1 =
      df.filter (fun r => decide (classify em r = RowClass.insert)) ∧
    (upsert_loop em df).2.2 =
      df.filter (fun r => decide (classify em r = RowClass.update)) := by
  induction df with
  | nil => simp [upsert_loop]
  | cons r t ih =>
    obtain ⟨h1, h2, h3, h4, h5⟩ := ih
    cases hd : dict_get em (r.series_id, to_date_str r.date) with
    | none =>
      simp [upsert_loop, hd, classify, List.filter_cons, h1, h2, h3, h4, h5]
    | some v =>
      cases hn : nan_equal r.value v <;>
        simp [upsert_loop, hd, hn, classify, List.filter_cons, h1, h2, h3, h4, h5]

/-- C1: each incoming row is classified against the existing
`(series_id, date)` keys as insert (key absent), unchanged (key present and
values equal under `_nan_equal`), or update (key present, values differ);
the returned counts equal the sizes of the three buckets; and `_nan_equal`
treats two nulls as equal, a null as unequal to any number, and numbers as
equal exactly when their absolute difference is below `1e-9`. -/
theorem upsert_observations_counts_match_buckets (df store : List FactRow) :
    ((upsert_observations df store).1.inserted =
      (df.filter (fun r =>
        decide (classify (existing_map store) r = RowClass.insert))).length ∧
     (upsert_observations df store).1.updated =
      (df.filter (fun r =>
        decide (classify (existing_map store) r = RowClass.update))).length ∧
     (upsert_observations df store).1.unchanged =
      (df.filter (fun r =>
        decide (classify (existing_map store) r = RowClass.unchanged))).length) ∧
    nan_equal none none = true ∧
    (∀ x : ℚ, nan_equal none (some x) = false ∧ nan_equal (some x) none = false) ∧
    (∀ x y : ℚ, nan_equal (some x) (some y) = true ↔ |x - y| < 1 / 1000000000) := by
  refine ⟨⟨?_, ?_, ?_⟩, rfl, fun x => ⟨rfl, rfl⟩, fun x y => ?_⟩
  · exact (upsert_loop_buckets (existing_map store) df).1
  · exact (upsert_loop_buckets (existing_map store) df).2.1
  · exact (upsert_loop_buckets (existing_map store) df).2.2.1
  · simp [nan_equal]

theorem upsert_dim_series_eq (df store : List DimRow) :
    upsert_dim_series df store =
      (⟨(df.filter (fun r => decide (r.series_id ∉ store.map (·.series_id)))).length,
        (df.filter (fun r => decide (r.series_id ∈ store.map (·.series_id)))).length⟩,
       store ++ df.filter (fun r => decide (r.series_id ∉ store.map (·.series_id)))) := by
  have hc := length_filter_add_length_filter_neg
    (fun r : DimRow => decide (r.series_id ∈ store.map (·.series_id))) df
  have hrw : (fun r : DimRow => ! decide (r.series_id ∈ store.map (·.series_id))) =
      (fun r : DimRow => decide (r.series_id ∉ store.map (·.series_id))) := by
    funext r
    rw [decide_not]
  rw [hrw] at hc
  unfold upsert_dim_series
  dsimp only
  split
  next he =>
    have hnil := List.isEmpty_iff.mp he
    rw [hnil] at hc ⊢
    simp only [List.length_nil, List.append_nil, Nat.add_zero, Nat.sub_zero] at hc ⊢
    rw [← hc]
  next he =>
    have h2 : df.length -
        (df.filter (fun r => decide (r.series_id ∉ store.map (·.series_id)))).length =
        (df.filter (fun r => decide (r.series_id ∈ store.map (·.series_id)))).length := by
      omega
    rw [h2]

/-- C5: the dimension upsert never modifies rows already in the store
(the prior store survives as an unmodified prefix, so the original
`series_name` and `source` stay intact), counts existing-key rows as
unchanged and new-key rows as inserted, and the two counts sum to the
number of input rows. -/
theorem upsert_dim_series_first_write_wins (df store : List DimRow) :
    (upsert_dim_series df store).2 =
      store ++ df.filter (fun r => decide (r.series_id ∉ store.map (·.series_id))) ∧
    (upsert_dim_series df store).1.inserted =
      (df.filter (fun r => decide (r.series_id ∉ store.map (·.series_id)))).length ∧
    (upsert_dim_series df store).1.unchanged =
      (df.filter (fun r => decide (r.series_id ∈ store.map (·.series_id)))).length ∧
    (upsert_dim_series df store).1.inserted +
      (upsert_dim_series df store).1.unchanged = df.length := by
  have hc := length_filter_add_length_filter_neg
    (fun r : DimRow => decide (r.series_id ∈ store.map (·.series_id))) df
  have hrw : (fun r : DimRow => ! decide (r.series_id ∈ store.map (·.series_id))) =
      (fun r : DimRow => decide (r.series_id ∉ store.map (·.series_id))) := by
    funext r
    rw [decide_not]
  rw [hrw] at hc
  rw [upsert_dim_series_eq]
  refine ⟨rfl, rfl, rfl, ?_⟩
  show (df.filter (fun r => decide (r.series_id ∉ store.map (·.series_id)))).length +
      (df.filter (fun r => decide (r.series_id ∈ store.map (·.series_id)))).length = df.length
  omega

/-! ## Extractor theorems -/

/-- C3: when the fingerprint of the observations portion of the response
equals the stored fingerprint, `fetch_fred_data` is a no-op: no snapshot is
written, the stored metadata is returned entirely unchanged, and nothing is
returned to the caller. -/
theorem fetch_fred_no_change_noop (apiKey : Option String) (seriesId : String)
    (meta : Metadata) (data : FredResponse) (today now : String)
    (hkey : apiKeyMissing apiKey = false)
    (hobs : data.observations.isNone = false)
    (hhash : meta.lastHash = some (fredObsHash data)) :
    fetch_fred_data apiKey seriesId meta (.ok data) today now =
      .ok ⟨none, meta, none⟩ := by
  simp [fetch_fred_data, hkey, hobs, hhash]

/-- Witness for the no-change no-op at a concrete stored fingerprint. -/
theorem fetch_fred_no_change_noop_witness :
    fetch_fred_data (some "test_key") "UNRATE" metaNoChange (.ok fredRespNoChange)
      "2024_01_02" "2024-01-02T12:00:00" = .ok ⟨none, metaNoChange, none⟩ :=
  fetch_fred_no_change_noop (some "test_key") "UNRATE" metaNoChange fredRespNoChange
    "2024_01_02" "2024-01-02T12:00:00" rfl rfl rfl

theorem pairwise_date_le_getLast (l : List Obs) :
    l.Pairwise (fun a b => a.date ≤ b.date) →
      ∀ (hne : l ≠ []) (o : Obs), o ∈ l → o.date ≤ (l.getLast hne).date := by
  induction l with
  | nil => intro _ hne; exact absurd rfl hne
  | cons x t ih =>
    intro hp hne o ho
    cases t with
    | nil =>
      have hx : o = x := by simpa using ho
      subst hx
      simp [List.getLast]
    | cons y s =>
      rw [List.getLast_cons (by simp)]
      rcases List.mem_cons.mp ho with h | h
      · subst h
        exact List.rel_of_pairwise_cons hp (List.getLast_mem (by simp))
      · exact ih hp.of_cons (by simp) o h

/-- C4: on a change-detected run, the stored `last_observation_date` becomes
the date of the last observation of the response when the response is
non-empty (the latest one when the response is date-sorted), and is
preserved unchanged when the response has zero observations; hence, whenever
the response only carries observations at or after the stored date, the
stored date never regresses. -/
theorem fetch_fred_change_updates_last_date (apiKey : Option String)
    (seriesId : String) (meta : Metadata) (data : FredResponse) (today now : String)
    (out : FredOutcome)
    (hok : fetch_fred_data apiKey seriesId meta (.ok data) today now = .ok out)
    (hwr : out.written.isSome = true) :
    (∀ hne : data.observations.getD [] ≠ [],
      out.meta.lastObservationDate =
        some (((data.observations.getD []).getLast hne).date)) ∧
    (data.observations.getD [] = [] →
      out.meta.lastObservationDate = meta.lastObservationDate) ∧
    ((data.observations.getD []).Pairwise (fun a b => a.date ≤ b.date) →
      ∀ o ∈ data.observations.getD [], ∃ dl,
        out.meta.lastObservationDate = some dl ∧ o.date ≤ dl) ∧
    (∀ d, meta.lastObservationDate = some d →
      (∀ o ∈ data.observations.getD [], d ≤ o.date) →
      ∃ dl, out.meta.lastObservationDate = some dl ∧ d ≤ dl) := by
  cases hk : apiKeyMissing apiKey with
  | true => simp [fetch_fred_data, hk] at hok
  | false =>
  cases hobs : data.observations with
  | none => simp [fetch_fred_data, hk, hobs] at hok
  | some obs =>
  cases hbeq : meta.lastHash == some (fredObsHash data) with
  | true =>
    simp [fetch_fred_data, hk, hobs, hbeq] at hok
    rw [← hok] at hwr
    simp at hwr
  | false =>
    simp only [fetch_fred_data, hk, Bool.false_eq_true, if_false, hobs,
      Option.isNone_some, hbeq, Option.getD_some, Except.ok.injEq] at hok ⊢
    rw [← hok]
    refine ⟨?_, ?_, ?_, ?_⟩
    · intro hne
      rw [List.getLast?_eq_getLast obs hne]
    · intro hnil
      subst hnil
      rfl
    · intro hp o ho
      have hne : obs ≠ [] := by rintro rfl; simp at ho
      refine ⟨(obs.getLast hne).date, ?_, ?_⟩
      · rw [List.getLast?_eq_getLast obs hne]
      · exact pairwise_date_le_getLast obs hp hne o ho
    · intro d hd hall
      cases hobs2 : obs.getLast? with
      | none =>
        rw [List.getLast?_eq_none_iff] at hobs2
        subst hobs2
        exact ⟨d, hd, le_refl d⟩
      | some o =>
        refine ⟨o.date, rfl, ?_⟩
        have hne : obs ≠ [] := by rintro rfl; simp at hobs2
        rw [List.getLast?_eq_getLast obs hne] at hobs2
        injection hobs2 with ho
        rw [← ho]
        exact hall (obs.getLast hne) (List.getLast_mem hne)

/-- Witness for the change-detected metadata update at a concrete run. -/
theorem fetch_fred_change_updates_last_date_witness :
    fetch_fred_data (some "test_key") "UNRATE" metaBeforeChange (.ok fredRespChange)
      "2024_01_02" "2024-01-02T12:00:00" = .ok fredOutChange ∧
    fredOutChange.meta.lastObservationDate = some "2024-01-01" := by
  have h := fetch_fred_change_updates_last_date (some "test_key") "UNRATE"
    metaBeforeChange fredRespChange "2024_01_02" "2024-01-02T12:00:00" fredOutChange
    rfl rfl
  exact ⟨rfl, (h.1 (by decide)).trans rfl⟩

theorem fetch_fred_ret_none (apiKey : Option String) (seriesId : String)
    (meta : Metadata) (http : Except HttpErr FredResponse) (today now : String)
    (out : FredOutcome)
    (hok : fetch_fred_data apiKey seriesId meta http today now = .ok out) :
    out.ret = none := by
  cases hk : apiKeyMissing apiKey with
  | true => simp [fetch_fred_data, hk] at hok
  | false =>
  cases http with
  | error e => simp [fetch_fred_data, hk] at hok
  | ok data =>
  cases hobs : data.observations with
  | none => simp [fetch_fred_data, hk, hobs] at hok
  | some obs =>
  cases hbeq : meta.lastHash == some (fredObsHash data) with
  | true =>
    simp [fetch_fred_data, hk, hobs, hbeq] at hok
    rw [← hok]
  | false =>
    simp [fetch_fred_data, hk, hobs, hbeq] at hok
    rw [← hok]

theorem fetch_bls_ret_none (apiKey : Option String)
    (seriesDict : List (String × String)) (startYear endYear : Int)
    (meta : Metadata) (http : Except HttpErr Json) (today now : String)
    (out : BlsOutcome)
    (hok : fetch_bls_data apiKey seriesDict startYear endYear meta http today now =
      .ok out) :
    out.ret = none := by
  unfold fetch_bls_data at hok
  split at hok
  · exact Except.noConfusion hok
  · split at hok
    · exact Except.noConfusion hok
    · split at hok
      · dsimp only at hok
        split at hok
        · injection hok with h
          rw [← h]
        · injection hok with h
          rw [← h]
      · exact Except.noConfusion hok

/-- C10: every non-raising run of `fetch_fred_data` and of `fetch_bls_data`
returns `None` — the payload goes only to the snapshot file — so the
orchestrator's transform phase, which keeps only non-`None` extraction
results, receives an empty list of Source-A tables. -/
theorem extractors_return_none_pipeline_empty :
    (∀ (apiKey : Option String) (seriesId : String) (meta : Metadata)
        (http : Except HttpErr FredResponse) (today now : String) (out : FredOutcome),
      fetch_fred_data apiKey seriesId meta http today now = .ok out → out.ret = none) ∧
    (∀ (apiKey : Option String) (seriesDict : List (String × String))
        (startYear endYear : Int) (meta : Metadata) (http : Except HttpErr Json)
        (today now : String) (out : BlsOutcome),
      fetch_bls_data apiKey seriesDict startYear endYear meta http today now = .ok out →
        out.ret = none) ∧
    (∀ (α : Type) (series : List (String × String))
        (fredData : String → Option FredResponse)
        (parse : FredResponse → String → String → α),
      (∀ p ∈ series, ∃ apiKey meta http today now out,
        fetch_fred_data apiKey p.2 meta http today now = Except.ok out ∧
        fredData p.1 = out.ret) →
      pipeline_fred_frames series fredData parse = []) := by
  refine ⟨fetch_fred_ret_none, fetch_bls_ret_none, ?_⟩
  intro α series fredData parse hall
  have hfil : series.filter (fun p => (fredData p.1).isSome) = [] := by
    rw [List.filter_eq_nil_iff]
    intro p hp
    obtain ⟨apiKey, meta, http, today, now, out, hok, hdata⟩ := hall p hp
    rw [hdata, fetch_fred_ret_none apiKey p.2 meta http today now out hok]
    simp
  unfold pipeline_fred_frames
  rw [hfil]
  rfl

/-! ## Key-order lemmas for the canonical serialization -/

theorem charsLe_trans (x : List Char) :
    ∀ y z, charsLe x y = true → charsLe y z = true → charsLe x z = true := by
  induction x with
  | nil => intro y z _ _; rfl
  | cons a as ih =>
    intro y z h1 h2
    cases y with
    | nil => simp [charsLe] at h1
    | cons b bs =>
      cases z with
      | nil => simp [charsLe] at h2
      | cons c cs =>
        by_cases hab : a < b
        · by_cases hbc : b < c
          · simp [charsLe, lt_trans hab hbc]
          · by_cases hcb : c < b
            · simp [charsLe, hbc, hcb] at h2
            · have hbc' : b = c := le_antisymm (not_lt.mp hcb) (not_lt.mp hbc)
              subst hbc'
              simp [charsLe, hab]
        · by_cases hba : b < a
          · simp [charsLe, hab, hba] at h1
          · have hab' : a = b := le_antisymm (not_lt.mp hba) (not_lt.mp hab)
            subst hab'
            simp only [charsLe, lt_irrefl, if_false] at h1
            by_cases hac : a < c
            · simp [charsLe, hac]
            · by_cases hca : c < a
              · simp [charsLe, hac, hca] at h2
              · have hac' : a = c := le_antisymm (not_lt.mp hca) (not_lt.mp hac)
                subst hac'
                simp only [charsLe, lt_irrefl, if_false] at h2 ⊢
                exact ih bs cs h1 h2

theorem charsLe_total (x : List Char) :
    ∀ y, charsLe x y = true ∨ charsLe y x = true := by
  induction x with
  | nil => intro y; left; rfl
  | cons a as ih =>
    intro y
    cases y with
    | nil => right; rfl
    | cons b bs =>
      rcases lt_trichotomy a b with h | h | h
      · left; simp [charsLe, h]
      · subst h
        rcases ih bs with hh | hh
        · left; simp [charsLe, lt_irrefl, hh]
        · right; simp [charsLe, lt_irrefl, hh]
      · right; simp [charsLe, h]

theorem charsLe_antisymm (x : List Char) :
    ∀ y, charsLe x y = true → charsLe y x = true → x = y := by
  induction x with
  | nil =>
    intro y h1 h2
    cases y with
    | nil => rfl
    | cons b bs => simp [charsLe] at h2
  | cons a as ih =>
    intro y h1 h2
    cases y with
    | nil => simp [charsLe] at h1
    | cons b bs =>
      by_cases hab : a < b
      · simp [charsLe, hab, lt_asymm hab] at h2
      · by_cases hba : b < a
        · simp [charsLe, hab, hba] at h1
        · have hab' : a = b := le_antisymm (not_lt.mp hba) (not_lt.mp hab)
          subst hab'
          simp only [charsLe, lt_irrefl, if_false] at h1 h2
          rw [ih bs h1 h2]

theorem keyLe_trans (s t u : String) (h1 : keyLe s t = true) (h2 : keyLe t u = true) :
    keyLe s u = true :=
  charsLe_trans s.data t.data u.data h1 h2

theorem keyLe_total (s t : String) : keyLe s t = true ∨ keyLe t s = true :=
  charsLe_total s.data t.data

theorem keyLe_antisymm (s t : String) (h1 : keyLe s t = true) (h2 : keyLe t s = true) :
    s = t := by
  have hd := charsLe_antisymm s.data t.data h1 h2
  cases s
  cases t
  exact congrArg String.mk hd

theorem insertionSortFields_eq_of_perm (m₁ m₂ : List (String × Json))
    (hp : m₁.Perm m₂) (hnd : (m₁.map Prod.fst).Nodup) :
    List.insertionSort (fun a b => keyLe a.1 b.1 = true) m₁ =
      List.insertionSort (fun a b => keyLe a.1 b.1 = true) m₂ := by
  haveI : IsTotal (String × Json) (fun a b => keyLe a.1 b.1 = true) :=
    ⟨fun a b => keyLe_total a.1 b.1⟩
  haveI : IsTrans (String × Json) (fun a b => keyLe a.1 b.1 = true) :=
    ⟨fun a b c hab hbc => keyLe_trans a.1 b.1 c.1 hab hbc⟩
  have hp₁ := List.perm_insertionSort (fun a b : String × Json => keyLe a.1 b.1 = true) m₁
  have hp₂ := List.perm_insertionSort (fun a b : String × Json => keyLe a.1 b.1 = true) m₂
  have hperm := hp₁.trans (hp.trans hp₂.symm)
  have hnd₁ : ((List.insertionSort (fun a b => keyLe a.1 b.1 = true) m₁).map
      Prod.fst).Nodup := ((hp₁.map Prod.fst).nodup_iff).mpr hnd
  have hnd₂ : ((List.insertionSort (fun a b => keyLe a.1 b.1 = true) m₂).map
      Prod.fst).Nodup := ((hperm.map Prod.fst).nodup_iff).mp hnd₁
  have hne₁ := List.pairwise_map.mp hnd₁
  have hne₂ := List.pairwise_map.mp hnd₂
  have hs₁ := List.sorted_insertionSort (fun a b : String × Json => keyLe a.1 b.1 = true) m₁
  have hs₂ := List.sorted_insertionSort (fun a b : String × Json => keyLe a.1 b.1 = true) m₂
  haveI : IsAntisymm (String × Json)
      (fun a b => (keyLe a.1 b.1 = true) ∧ ¬ a.1 = b.1) :=
    ⟨fun a b hab hba => absurd (keyLe_antisymm a.1 b.1 hab.1 hba.1) hab.2⟩
  exact List.eq_of_perm_of_sorted hperm (hs₁.and hne₁) (hs₂.and hne₂)

theorem canonFields_eq_map (l : List (String × Json)) :
    canonFields l = l.map (fun p => (p.1, canon p.2)) := by
  induction l with
  | nil => rfl
  | cons p t ih =>
    cases p
    simp [canonFields, ih]

theorem map_fst_canonFields (l : List (String × Json)) :
    (canonFields l).map Prod.fst = l.map Prod.fst := by
  rw [canonFields_eq_map, List.map_map]
  rfl

/-! ## Fingerprint theorems -/

theorem hexChar_mem (n : Nat) : hexChar n ∈ hexDigitList := by
  unfold hexChar
  have h : n % 16 < 16 := Nat.mod_lt _ (by norm_num)
  revert h
  generalize n % 16 = m
  intro h
  interval_cases m <;> decide

theorem mem_wordHex {c : Char} (w : Nat) (hc : c ∈ wordHex w) : c ∈ hexDigitList := by
  simp only [wordHex, List.mem_cons, List.not_mem_nil, or_false] at hc
  rcases hc with h | h | h | h | h | h | h | h <;> (subst h; exact hexChar_mem _)

theorem compute_hash_length_hex (j : Json) :
    (compute_hash j).length = 64 ∧ ∀ c ∈ (compute_hash j).data, c ∈ hexDigitList := by
  unfold compute_hash sha256_hexdigest
  dsimp only
  constructor
  · show (List.length _) = 64
    simp [wordHex]
  · intro c hc
    simp only [List.mem_append, or_assoc] at hc
    rcases hc with h | h | h | h | h | h | h | h <;> exact mem_wordHex _ h

set_option maxRecDepth 10000 in
/-- C7: `compute_hash` is independent of object key insertion order for
structurally equal payloads, discriminates between payloads differing in a
value, and always yields a 64-character lowercase-hexadecimal digest. -/
theorem compute_hash_order_independent_discriminating_hex :
    (∀ l₁ l₂ : List (String × Json), l₁.Perm l₂ → (l₁.map Prod.fst).Nodup →
      compute_hash (Json.obj l₁) = compute_hash (Json.obj l₂)) ∧
    compute_hash (Json.obj [("a", Json.num 1)]) ≠
      compute_hash (Json.obj [("a", Json.num 2)]) ∧
    (∀ j : Json, (compute_hash j).length = 64 ∧
      ∀ c ∈ (compute_hash j).data, c ∈ hexDigitList) := by
  refine ⟨?_, by decide, compute_hash_length_hex⟩
  intro l₁ l₂ hp hnd
  have hc : canon (Json.obj l₁) = canon (Json.obj l₂) := by
    simp only [canon]
    congr 1
    apply insertionSortFields_eq_of_perm
    · rw [canonFields_eq_map, canonFields_eq_map]
      exact hp.map _
    · rw [map_fst_canonFields]
      exact hnd
  unfold compute_hash dumps_sorted
  rw [hc]

/-! ## Combiner theorem -/

/-- C8: `combine_fact_tables` returns a permutation of the concatenation of
the Source-A tables with the Source-B table, sorted ascending by date, and
rows with equal dates keep their input-concatenation order (for every date,
the restriction of the output to that date equals the restriction of the
concatenation). -/
theorem combine_fact_tables_sorted_stable (fredFrames : List (List FactRow))
    (blsFrame : List FactRow) :
    (combine_fact_tables fredFrames blsFrame).Perm (fredFrames.flatten ++ blsFrame) ∧
    (combine_fact_tables fredFrames blsFrame).Pairwise (fun a b => a.date ≤ b.date) ∧
    (∀ d : String,
      (combine_fact_tables fredFrames blsFrame).filter (fun r => decide (r.date = d)) =
        (fredFrames.flatten ++ blsFrame).filter (fun r => decide (r.date = d))) := by
  have htrans : ∀ a b c : FactRow, decide (a.date ≤ b.date) = true →
      decide (b.date ≤ c.date) = true → decide (a.date ≤ c.date) = true := by
    intro a b c h1 h2
    simp only [decide_eq_true_eq] at h1 h2 ⊢
    exact le_trans h1 h2
  have htot : ∀ a b : FactRow,
      (decide (a.date ≤ b.date) || decide (b.date ≤ a.date)) = true := by
    intro a b
    simp only [Bool.or_eq_true, decide_eq_true_eq]
    exact le_total a.date b.date
  unfold combine_fact_tables
  refine ⟨List.mergeSort_perm _ _, ?_, ?_⟩
  · exact (List.sorted_mergeSort htrans htot (fredFrames.flatten ++ blsFrame)).imp
      (fun h => of_decide_eq_true h)
  · intro d
    have hidem : ((fredFrames.flatten ++ blsFrame).filter
        (fun r => decide (r.date = d))).filter (fun r => decide (r.date = d)) =
        (fredFrames.flatten ++ blsFrame).filter (fun r => decide (r.date = d)) :=
      List.filter_eq_self.mpr (fun a ha => (List.mem_filter.mp ha).2)
    have hpair : ((fredFrames.flatten ++ blsFrame).filter
        (fun r => decide (r.date = d))).Pairwise
        (fun a b => decide (a.date ≤ b.date) = true) := by
      apply List.pairwise_of_forall_mem_list
      intro a ha b hb
      have ha' := (List.mem_filter.mp ha).2
      have hb' := (List.mem_filter.mp hb).2
      simp only [decide_eq_true_eq] at ha' hb' ⊢
      rw [ha', hb']
    have hsubl := List.sublist_mergeSort htrans htot hpair
      (List.filter_sublist (fredFrames.flatten ++ blsFrame))
    have hsub2 := hsubl.filter (fun r => decide (r.date = d))
    rw [hidem] at hsub2
    have hperm := (List.mergeSort_perm (fredFrames.flatten ++ blsFrame)
      (fun a b => decide (a.date ≤ b.date))).filter (fun r => decide (r.date = d))
    exact (hsub2.eq_of_length hperm.length_eq.symm).symm
